import Mathlib

/-!
Verification of the deferred skybox texture-conversion queue of
`bevy_skybox_cubemap` (`src/lib.rs`).

The component under scrutiny consists of:

* `SkyboxTextureConversion` — a resource holding `handles : Vec<Handle<Image>>`
  (the pending-conversion queue);
* `SkyboxTextureConversion::make_array` — pushes a handle onto the queue;
* `convert_skyboxes` — the per-frame system: a `while let` loop over an
  explicit `index` into `handles`; for each entry, if the texture is resident
  in `Assets<Image>` the entry is removed (`Vec::remove(index)`, which shifts
  later entries down and preserves their order) and
  `Texture::reinterpret_stacked_2d_as_array(6)` is applied to the texture in
  place; otherwise `index` is incremented.

Handles are modelled as naturals, the asset store as a function from handles
to optional images, and the image itself as a byte list plus layout metadata.
The host engine's conversion primitive is not part of this repository's
sources and is modelled from the specification.
-/

/-- A texture handle: an opaque, comparable identifier for an image resource
in the external asset store. Modelled as a natural number. -/
abbrev Handle := Nat

/-- An image resource: the raw pixel bytes plus the layout metadata that the
conversion rewrites (`width`/`height` of one layer, and the number of array
layers, Bevy's `size.depth_or_array_layers`). A freshly loaded flat `N x 6N`
image has `layers = 1`. -/
structure Image where
  data : List Nat
  width : Nat
  height : Nat
  layers : Nat
deriving DecidableEq

/-- Modelled from the spec: the consumed in-place layout-conversion primitive
(`Texture::reinterpret_stacked_2d_as_array`, owned by the host engine, not
part of this repository's sources). Per the spec's external-interface
description, it interprets the existing pixel buffer as `n` equal-height
horizontal strips stacked vertically and rewrites the layout metadata so each
strip becomes one layer of an `n`-layer array; the byte content is preserved
unchanged. -/
def reinterpret_stacked_2d_as_array (img : Image) (n : Nat) : Image :=
  { img with height := img.height / n, layers := n }

/-- One application of the conversion primitive with 6 layers, exactly as
`convert_skyboxes` invokes it. -/
def convert6 (img : Image) : Image :=
  reinterpret_stacked_2d_as_array img 6

/-- The external asset store `Assets<Image>`: a handle is *resident* when the
store maps it to `some` image (its pixel data has finished loading). -/
abbrev Assets := Handle → Option Image

/-- Store an image under a handle (the store's mutation primitive: used both
for the external loader writing a finished load and for `get_mut` followed by
in-place mutation inside the maintenance pass). -/
def Assets.set (a : Assets) (h : Handle) (img : Image) : Assets :=
  fun h2 => if h2 = h then some img else a h2

/-- The `SkyboxTextureConversion` resource: the list of texture handles that
should be converted into skybox array textures, in enqueue order. -/
structure SkyboxTextureConversion where
  handles : List Handle
deriving DecidableEq

/-- `SkyboxTextureConversion::make_array`: pushes the handle onto the end of
the pending queue, unconditionally. -/
def make_array (c : SkyboxTextureConversion) (h : Handle) : SkyboxTextureConversion :=
  { c with handles := c.handles ++ [h] }

/-- The body of the `convert_skyboxes` loop, translated directly from the
source: `index` starts at 0; while `handles.get(index)` is `Some(handle)`,
look the handle up in the asset store; if resident, remove the entry at
`index` (shifting later entries down, `index` unchanged) and apply the
conversion primitive to the texture in place; if not resident, increment
`index` and continue. Returns the final queue and store. -/
def convertFrom (q : List Handle) (i : Nat) (a : Assets) : List Handle × Assets :=
  if h : i < q.length then
    match a (q[i]) with
    | some tex =>
        convertFrom (q.eraseIdx i) i (Assets.set a (q[i]) (reinterpret_stacked_2d_as_array tex 6))
    | none => convertFrom q (i + 1) a
  else
    (q, a)
termination_by q.length - i
decreasing_by
  · rw [List.length_eraseIdx_of_lt h]
    omega
  · omega

/-- The residency checks performed by the `convert_skyboxes` loop, in the
order the loop performs them: the same recursion as `convertFrom`, recording
the handle examined at each iteration. -/
def checksFrom (q : List Handle) (i : Nat) (a : Assets) : List Handle :=
  if h : i < q.length then
    match a (q[i]) with
    | some tex =>
        q[i] :: checksFrom (q.eraseIdx i) i (Assets.set a (q[i]) (reinterpret_stacked_2d_as_array tex 6))
    | none => q[i] :: checksFrom q (i + 1) a
  else
    []
termination_by q.length - i
decreasing_by
  · rw [List.length_eraseIdx_of_lt h]
    omega
  · omega

/-- The `convert_skyboxes` system: one maintenance pass over the pending
queue, starting at index 0. -/
def convert_skyboxes (conversions : SkyboxTextureConversion) (textures : Assets) :
    SkyboxTextureConversion × Assets :=
  (⟨(convertFrom conversions.handles 0 textures).1⟩,
    (convertFrom conversions.handles 0 textures).2)

/-- Structural reformulation of the loop: process the queue front-to-back;
a resident entry is dropped (converted), a non-resident entry is kept. Proven
equivalent to the indexed loop in `convertFrom_eq`. -/
def convertList (q : List Handle) (a : Assets) : List Handle × Assets :=
  match q with
  | [] => ([], a)
  | hd :: t =>
    match a hd with
    | some tex => convertList t (Assets.set a hd (reinterpret_stacked_2d_as_array tex 6))
    | none =>
        ((hd :: (convertList t a).1), (convertList t a).2)

/-- Bytes of layer `i` of an image, as the store's layout metadata addresses
them: the `i`-th block of `data.length / layers` consecutive bytes. -/
def layerData (img : Image) (i : Nat) : List Nat :=
  (img.data.drop (i * (img.data.length / img.layers))).take (img.data.length / img.layers)

/-- Erasing at the index just past a prefix removes the head of the suffix. -/
theorem eraseIdx_append_cons (pre : List Handle) (hd : Handle) (t : List Handle) :
    (pre ++ hd :: t).eraseIdx pre.length = pre ++ t := by
  induction pre with
  | nil => rfl
  | cons p ps ih => simp [List.eraseIdx, ih]

/-- Indexing just past a prefix reads the head of the suffix. -/
theorem getElem_append_cons (pre : List Handle) (hd : Handle) (t : List Handle)
    (h : pre.length < (pre ++ hd :: t).length) :
    (pre ++ hd :: t)[pre.length] = hd := by
  induction pre with
  | nil => rfl
  | cons p ps ih =>
    have h2 : ps.length < (ps ++ hd :: t).length := by simp
    simpa using ih h2

/-- The indexed loop, entered at the index just past an already-scanned prefix
of non-resident entries, behaves like the structural loop on the remaining
suffix, leaving the prefix in place. -/
theorem convertFrom_eq_aux (rest : List Handle) :
    ∀ (pre : List Handle) (a : Assets),
      convertFrom (pre ++ rest) pre.length a =
        (pre ++ (convertList rest a).1, (convertList rest a).2) := by
  induction rest with
  | nil =>
    intro pre a
    rw [convertFrom]
    simp [convertList]
  | cons hd t ih =>
    intro pre a
    rw [convertFrom]
    have hlt : pre.length < (pre ++ hd :: t).length := by
      simp
    rw [dif_pos hlt]
    rw [getElem_append_cons pre hd t hlt]
    cases hres : a hd with
    | some tex =>
      rw [eraseIdx_append_cons]
      simp only []
      rw [ih pre (Assets.set a hd (reinterpret_stacked_2d_as_array tex 6))]
      simp [convertList, hres]
    | none =>
      simp only []
      have hlen : pre.length + 1 = (pre ++ [hd]).length := by simp
      have happ : pre ++ hd :: t = (pre ++ [hd]) ++ t := by simp
      rw [hlen, happ, ih (pre ++ [hd]) a]
      simp [convertList, hres]

/-- The maintenance pass equals the structural loop on the whole queue. -/
theorem convertFrom_eq (q : List Handle) (a : Assets) :
    convertFrom q 0 a = ((convertList q a).1, (convertList q a).2) := by
  simpa using convertFrom_eq_aux q [] a

/-- The checks performed when the loop is entered just past a prefix are
exactly the entries of the remaining suffix, in order: every entry is examined
exactly once per pass, resident or not, also when entries shift after a
removal. -/
theorem checksFrom_eq_aux (rest : List Handle) :
    ∀ (pre : List Handle) (a : Assets),
      checksFrom (pre ++ rest) pre.length a = rest := by
  induction rest with
  | nil =>
    intro pre a
    rw [checksFrom]
    simp
  | cons hd t ih =>
    intro pre a
    rw [checksFrom]
    have hlt : pre.length < (pre ++ hd :: t).length := by
      simp
    rw [dif_pos hlt]
    rw [getElem_append_cons pre hd t hlt]
    cases hres : a hd with
    | some tex =>
      rw [eraseIdx_append_cons]
      simp only []
      rw [ih pre (Assets.set a hd (reinterpret_stacked_2d_as_array tex 6))]
    | none =>
      simp only []
      have hlen : pre.length + 1 = (pre ++ [hd]).length := by simp
      have happ : pre ++ hd :: t = (pre ++ [hd]) ++ t := by simp
      rw [hlen, happ, ih (pre ++ [hd]) a]

/-- A full maintenance pass checks every entry of the starting queue for
residency exactly once, in queue order. -/
theorem checksFrom_eq (q : List Handle) (a : Assets) : checksFrom q 0 a = q := by
  simpa using checksFrom_eq_aux q [] a

/-- Writing a converted image under a resident handle does not change which
handles the store considers resident. -/
theorem set_preserves_isNone (a : Assets) (hd : Handle) (tex img : Image)
    (hres : a hd = some tex) (h2 : Handle) :
    ((Assets.set a hd img) h2).isNone = (a h2).isNone := by
  by_cases heq : h2 = hd
  · subst heq
    simp [Assets.set, hres]
  · simp [Assets.set, heq]

/-- Queue after one structural pass: exactly the entries whose resource was
not resident at the start of the pass, in their original relative order. -/
theorem convertList_fst (q : List Handle) :
    ∀ a : Assets, (convertList q a).1 = q.filter (fun h => (a h).isNone) := by
  induction q with
  | nil => intro a; rfl
  | cons hd t ih =>
    intro a
    cases hres : a hd with
    | some tex =>
      simp only [convertList, hres]
      rw [ih (Assets.set a hd (reinterpret_stacked_2d_as_array tex 6))]
      rw [List.filter_cons_of_neg (by simp [hres])]
      exact List.filter_congr fun x _ => by
        rw [set_preserves_isNone a hd tex _ hres x]
    | none =>
      simp only [convertList, hres]
      rw [ih a]
      rw [List.filter_cons_of_pos (by simp [hres])]

/-- Store after one structural pass, pointwise: a non-resident handle is left
unchanged; a resident handle's image receives one application of the
conversion primitive per occurrence of the handle in the queue. -/
theorem convertList_snd (q : List Handle) :
    ∀ (a : Assets) (h : Handle),
      (convertList q a).2 h = Option.map (fun img => convert6^[q.count h] img) (a h) := by
  induction q with
  | nil =>
    intro a h
    simp only [convertList, List.count_nil, Function.iterate_zero]
    cases a h <;> rfl
  | cons hd t ih =>
    intro a h
    cases hres : a hd with
    | some tex =>
      simp only [convertList, hres]
      rw [ih (Assets.set a hd (reinterpret_stacked_2d_as_array tex 6)) h]
      by_cases heq : h = hd
      · subst heq
        have hset : (Assets.set a h (reinterpret_stacked_2d_as_array tex 6)) h
            = some (convert6 tex) := by
          simp [Assets.set, convert6]
        rw [hset, hres, List.count_cons_self]
        simp only [Option.map_some']
        rw [Function.iterate_succ_apply]
      · have hne2 : ¬ h = hd := heq
        simp only [Assets.set, if_neg hne2]
        rw [List.count_cons_of_ne (by simpa using heq)]
    | none =>
      simp only [convertList, hres]
      rw [ih a h]
      by_cases heq : h = hd
      · subst heq
        rw [hres]
        rfl
      · rw [List.count_cons_of_ne (by simpa using heq)]

/-- Queue after a maintenance pass: the non-resident entries, order kept. -/
theorem convert_skyboxes_handles (c : SkyboxTextureConversion) (a : Assets) :
    (convert_skyboxes c a).1.handles = c.handles.filter (fun h => (a h).isNone) := by
  simp only [convert_skyboxes, convertFrom_eq]
  exact convertList_fst c.handles a

/-- Store after a maintenance pass, pointwise. -/
theorem convert_skyboxes_store (c : SkyboxTextureConversion) (a : Assets) (h : Handle) :
    (convert_skyboxes c a).2 h =
      Option.map (fun img => convert6^[c.handles.count h] img) (a h) := by
  simp only [convert_skyboxes, convertFrom_eq]
  exact convertList_snd c.handles a h

/-- The queue across successive maintenance passes: `passTrace s q0 k` is the
pending queue at the start of pass `k`, where `s k` is the state of the asset
store the system observes during pass `k` (the store between passes is under
the control of the environment: the external loader fills in finished loads,
and earlier passes have applied their conversions; quantifying over an
arbitrary per-pass store covers every such evolution). -/
def passTrace (s : Nat → Assets) (q0 : List Handle) : Nat → List Handle
  | 0 => q0
  | k + 1 => (convert_skyboxes ⟨passTrace s q0 k⟩ (s k)).1.handles

/-- A handle the pass sees as non-resident keeps all its queue occurrences. -/
theorem count_pass_of_none (c : SkyboxTextureConversion) (a : Assets) (r : Handle)
    (hnone : a r = none) :
    (convert_skyboxes c a).1.handles.count r = c.handles.count r := by
  rw [convert_skyboxes_handles]
  exact List.count_filter (by simp [hnone])

/-- A handle absent from the queue stays absent after a pass. -/
theorem not_mem_pass_of_not_mem (c : SkyboxTextureConversion) (a : Assets) (r : Handle)
    (habs : r ∉ c.handles) :
    r ∉ (convert_skyboxes c a).1.handles := by
  rw [convert_skyboxes_handles]
  intro hmem
  exact habs (List.mem_filter.1 hmem).1

/-- Claim C1: for a reference `r` enqueued once while not yet resident, at the
first maintenance pass `K` at which `r` is resident, `r` is removed from the
queue (the surviving queue being the residency filter of the previous one,
order preserved) and the conversion primitive is applied to its buffer exactly
once within that pass; before pass `K` the resource at `r` is never touched,
and from pass `K + 1` on `r` is absent from the queue. -/
theorem C1_converted_once_at_first_resident_pass
    (s : Nat → Assets) (q0 : List Handle) (r : Handle) (K : Nat) (tex : Image)
    (hcount : q0.count r = 1)
    (hbefore : ∀ k, k < K → s k r = none)
    (hres : s K r = some tex) :
    (∀ k, k < K → (convert_skyboxes ⟨passTrace s q0 k⟩ (s k)).2 r = none) ∧
    passTrace s q0 (K + 1) =
      (passTrace s q0 K).filter (fun h => ((s K) h).isNone) ∧
    (convert_skyboxes ⟨passTrace s q0 K⟩ (s K)).2 r
      = some (reinterpret_stacked_2d_as_array tex 6) ∧
    (∀ k, K < k → r ∉ passTrace s q0 k) := by
  have hcountk : ∀ k, k ≤ K → (passTrace s q0 k).count r = 1 := by
    intro k
    induction k with
    | zero => intro _; exact hcount
    | succ n ihn =>
      intro hle
      have hn : n < K := Nat.lt_of_succ_le hle
      rw [passTrace]
      rw [count_pass_of_none ⟨passTrace s q0 n⟩ (s n) r (hbefore n hn)]
      exact ihn (Nat.le_of_lt hn)
  have hsecond : passTrace s q0 (K + 1) =
      (passTrace s q0 K).filter (fun h => ((s K) h).isNone) := by
    rw [passTrace, convert_skyboxes_handles]
  have hthird : (convert_skyboxes ⟨passTrace s q0 K⟩ (s K)).2 r
      = some (reinterpret_stacked_2d_as_array tex 6) := by
    rw [convert_skyboxes_store]
    simp only [hres, Option.map_some']
    rw [hcountk K (Nat.le_refl K), Function.iterate_one]
    rfl
  have habsK : r ∉ passTrace s q0 (K + 1) := by
    rw [hsecond]
    intro hmem
    have := (List.mem_filter.1 hmem).2
    rw [hres] at this
    simp at this
  refine ⟨?_, hsecond, hthird, ?_⟩
  · intro k hk
    rw [convert_skyboxes_store]
    rw [hbefore k hk]
    rfl
  · intro k hk
    refine Nat.le_induction habsK ?_ k (Nat.succ_le_of_lt hk)
    intro n _ ihn
    rw [passTrace]
    exact not_mem_pass_of_not_mem ⟨passTrace s q0 n⟩ (s n) r ihn

/-- A concrete flat 1 x 6 image (six strips of one byte each). -/
def texA : Image :=
  ⟨[0, 1, 2, 3, 4, 5], 1, 6, 1⟩

/-- A concrete per-pass store schedule: nothing is resident during pass 0;
from pass 1 on, handle 0 is resident with `texA`. -/
def storeA : Nat → Assets :=
  fun k h => if k = 0 then none else if h = 0 then some texA else none

/-- Witness for C1 at a concrete input: handle 0 enqueued once, not resident
at pass 0, resident at pass 1. -/
theorem C1_witness :
    (([0] : List Handle).count 0 = 1 ∧ (∀ k, k < 1 → storeA k 0 = none) ∧
      storeA 1 0 = some texA) ∧
    ((∀ k, k < 1 → (convert_skyboxes ⟨passTrace storeA [0] k⟩ (storeA k)).2 0 = none) ∧
      passTrace storeA [0] (1 + 1) =
        (passTrace storeA [0] 1).filter (fun h => ((storeA 1) h).isNone) ∧
      (convert_skyboxes ⟨passTrace storeA [0] 1⟩ (storeA 1)).2 0
        = some (reinterpret_stacked_2d_as_array texA 6) ∧
      (∀ k, 1 < k → 0 ∉ passTrace storeA [0] k)) :=
  ⟨⟨by decide,
    fun k hk => by
      have hk0 : k = 0 := Nat.lt_one_iff.mp hk
      rw [hk0]
      rfl,
    rfl⟩,
    C1_converted_once_at_first_resident_pass storeA [0] 0 1 texA (by decide)
      (fun k hk => by
        have hk0 : k = 0 := Nat.lt_one_iff.mp hk
        rw [hk0]
        rfl)
      rfl⟩

/-- Claim C2: a reference whose resource is never resident is left in place by
every maintenance pass (all its occurrences kept, its resource untouched), a
not-ready entry does not shield ready entries from being processed in the same
pass, and over any sequence of passes in which no pending resource is resident
the queue is unchanged (in particular its length is non-decreasing); no error
state exists — such entries merely remain pending. -/
theorem C2_never_resident_remains_pending
    (s : Nat → Assets) (q0 : List Handle) (r : Handle)
    (hnever : ∀ k, s k r = none) :
    (∀ k, (passTrace s q0 k).count r = q0.count r) ∧
    (∀ k, (convert_skyboxes ⟨passTrace s q0 k⟩ (s k)).2 r = none) ∧
    (∀ k h, h ∈ passTrace s q0 k → ((s k) h).isSome →
      h ∉ passTrace s q0 (k + 1)) ∧
    ((∀ k h, h ∈ passTrace s q0 k → s k h = none) →
      ∀ k, passTrace s q0 k = q0 ∧ (passTrace s q0 k).length = q0.length) := by
  refine ⟨?_, ?_, ?_, ?_⟩
  · intro k
    induction k with
    | zero => rfl
    | succ n ihn =>
      rw [passTrace]
      rw [count_pass_of_none ⟨passTrace s q0 n⟩ (s n) r (hnever n)]
      exact ihn
  · intro k
    rw [convert_skyboxes_store]
    rw [hnever k]
    rfl
  · intro k h hmem hsome
    rw [passTrace, convert_skyboxes_handles]
    intro hmemf
    have hnone := (List.mem_filter.1 hmemf).2
    rw [Option.isSome_iff_exists] at hsome
    obtain ⟨img, himg⟩ := hsome
    rw [himg] at hnone
    simp at hnone
  · intro hall k
    induction k with
    | zero => exact ⟨rfl, rfl⟩
    | succ n ihn =>
      have hq : passTrace s q0 (n + 1) = q0 := by
        rw [passTrace, convert_skyboxes_handles]
        rw [ihn.1]
        refine List.filter_eq_self.mpr ?_
        intro h hmem
        have := hall n h (by rw [ihn.1]; exact hmem)
        simp [this]
      exact ⟨hq, by rw [hq]⟩

/-- A store schedule in which nothing is ever resident. -/
def storeNone : Nat → Assets :=
  fun _ _ => none

/-- Witness for C2 at a concrete input: handles 5 and 7 pending, never any
resident resource. -/
theorem C2_witness :
    (∀ k, storeNone k 5 = none) ∧
    ((∀ k, (passTrace storeNone [5, 7] k).count 5 = ([5, 7] : List Handle).count 5) ∧
      (∀ k, (convert_skyboxes ⟨passTrace storeNone [5, 7] k⟩ (storeNone k)).2 5 = none) ∧
      (∀ k h, h ∈ passTrace storeNone [5, 7] k → ((storeNone k) h).isSome →
        h ∉ passTrace storeNone [5, 7] (k + 1)) ∧
      ((∀ k h, h ∈ passTrace storeNone [5, 7] k → storeNone k h = none) →
        ∀ k, passTrace storeNone [5, 7] k = [5, 7] ∧
          (passTrace storeNone [5, 7] k).length = ([5, 7] : List Handle).length)) :=
  ⟨fun _ => rfl, C2_never_resident_remains_pending storeNone [5, 7] 5 (fun _ => rfl)⟩

/-- A maintenance pass over an empty queue changes nothing. -/
theorem convert_skyboxes_nil (a : Assets) : convert_skyboxes ⟨[]⟩ a = (⟨[]⟩, a) := by
  simp only [convert_skyboxes, convertFrom_eq]
  rfl

/-- Claim C3: after one enqueue of `r` and `r` becoming resident, running the
maintenance pass twice produces exactly the state produced by running it once;
the second pass converts nothing and changes nothing. -/
theorem C3_second_pass_is_identity
    (r : Handle) (tex : Image) (a : Assets) (hres : a r = some tex) :
    convert_skyboxes (convert_skyboxes ⟨[r]⟩ a).1 (convert_skyboxes ⟨[r]⟩ a).2
      = convert_skyboxes ⟨[r]⟩ a := by
  have hh : (convert_skyboxes ⟨[r]⟩ a).1.handles = [] := by
    rw [convert_skyboxes_handles]
    simp [hres]
  have h1 : (convert_skyboxes ⟨[r]⟩ a).1 = (⟨[]⟩ : SkyboxTextureConversion) := by
    have heta : (convert_skyboxes ⟨[r]⟩ a).1
        = ⟨(convert_skyboxes ⟨[r]⟩ a).1.handles⟩ := rfl
    rw [heta, hh]
  rw [h1, convert_skyboxes_nil]
  exact Prod.ext h1.symm rfl

/-- A concrete store in which only handle 0 is resident. -/
def storeB : Assets :=
  fun h => if h = 0 then some texA else none

/-- Witness for C3 at a concrete input. -/
theorem C3_witness :
    storeB 0 = some texA ∧
    convert_skyboxes (convert_skyboxes ⟨[0]⟩ storeB).1 (convert_skyboxes ⟨[0]⟩ storeB).2
      = convert_skyboxes ⟨[0]⟩ storeB :=
  ⟨rfl, C3_second_pass_is_identity 0 texA storeB rfl⟩

/-- Claim C4: with distinct references `r1`, `r2` each enqueued once and `r2`
becoming resident first (pass 0) while `r1` becomes resident later (pass 1),
the outcome is independent of enqueue order: under both enqueue orders pass 0
removes and converts exactly `r2`, leaving the queue `[r1]`, and the following
pass removes and converts `r1`. -/
theorem C4_order_independent_conversion
    (r1 r2 : Handle) (t1 t2 : Image) (s0 s1 : Assets)
    (hne : r1 ≠ r2)
    (h0r1 : s0 r1 = none) (h0r2 : s0 r2 = some t2)
    (h1r1 : s1 r1 = some t1) :
    ((convert_skyboxes ⟨[r1, r2]⟩ s0).1.handles = [r1] ∧
      (convert_skyboxes ⟨[r2, r1]⟩ s0).1.handles = [r1] ∧
      (convert_skyboxes ⟨[r1, r2]⟩ s0).2 r2 = some (reinterpret_stacked_2d_as_array t2 6) ∧
      (convert_skyboxes ⟨[r2, r1]⟩ s0).2 r2 = some (reinterpret_stacked_2d_as_array t2 6)) ∧
    ((convert_skyboxes ⟨[r1]⟩ s1).1.handles = [] ∧
      (convert_skyboxes ⟨[r1]⟩ s1).2 r1 = some (reinterpret_stacked_2d_as_array t1 6)) := by
  have hc12 : ([r1, r2] : List Handle).count r2 = 1 := by
    rw [List.count_cons_of_ne (Ne.symm hne)]
    exact List.count_singleton_self r2
  have hc21 : ([r2, r1] : List Handle).count r2 = 1 := by
    rw [List.count_cons_self]
    rw [List.count_eq_zero.mpr (by simpa using Ne.symm hne)]
  have hc1 : ([r1] : List Handle).count r1 = 1 := List.count_singleton_self r1
  refine ⟨⟨?_, ?_, ?_, ?_⟩, ?_, ?_⟩
  · rw [convert_skyboxes_handles]
    simp [h0r1, h0r2]
  · rw [convert_skyboxes_handles]
    simp [h0r1, h0r2]
  · rw [convert_skyboxes_store, hc12, h0r2, Option.map_some', Function.iterate_one]
    rfl
  · rw [convert_skyboxes_store, hc21, h0r2, Option.map_some', Function.iterate_one]
    rfl
  · rw [convert_skyboxes_handles]
    simp [h1r1]
  · rw [convert_skyboxes_store, hc1, h1r1, Option.map_some', Function.iterate_one]
    rfl

/-- A concrete store in which only handle 1 is resident. -/
def storeC : Assets :=
  fun h => if h = 1 then some texA else none

/-- Witness for C4 at a concrete input: handles 0 and 1, handle 1 resident
during the first pass, handle 0 resident during the second. -/
theorem C4_witness :
    ((0 : Handle) ≠ 1 ∧ storeC 0 = none ∧ storeC 1 = some texA ∧
      storeB 0 = some texA) ∧
    (((convert_skyboxes ⟨[0, 1]⟩ storeC).1.handles = [0] ∧
      (convert_skyboxes ⟨[1, 0]⟩ storeC).1.handles = [0] ∧
      (convert_skyboxes ⟨[0, 1]⟩ storeC).2 1 = some (reinterpret_stacked_2d_as_array texA 6) ∧
      (convert_skyboxes ⟨[1, 0]⟩ storeC).2 1 = some (reinterpret_stacked_2d_as_array texA 6)) ∧
      ((convert_skyboxes ⟨[0]⟩ storeB).1.handles = [] ∧
      (convert_skyboxes ⟨[0]⟩ storeB).2 0 = some (reinterpret_stacked_2d_as_array texA 6))) :=
  ⟨⟨by decide, rfl, rfl, rfl⟩,
    C4_order_independent_conversion 0 1 texA texA storeC storeB (by decide) rfl rfl rfl⟩

/-- Claim C5: each maintenance pass runs to completion (the loop is a total
function, defined by recursion on the strictly decreasing measure
`handles.length - index`), and the sequence of residency checks it performs is
exactly the queue it started from: every entry present at the start of the
pass is checked exactly once in that pass — also when entries shift position
after a removal — and a not-yet-resident entry is not examined a second time
within the same pass. -/
theorem C5_pass_terminates_checking_each_entry_once (q : List Handle) (a : Assets) :
    checksFrom q 0 a = q ∧
    (convert_skyboxes ⟨q⟩ a).1.handles = q.filter (fun h => (a h).isNone) :=
  ⟨checksFrom_eq q a, convert_skyboxes_handles ⟨q⟩ a⟩

/-- Claim C6: `make_array` unconditionally appends the reference to the end of
the pending queue, growing it by exactly one, with no precondition on the load
state and no failure path (it is a total function); enqueuing the same
reference twice produces two pending entries. -/
theorem C6_make_array_appends_unconditionally (c : SkyboxTextureConversion) (h : Handle) :
    (make_array c h).handles = c.handles ++ [h] ∧
    (make_array c h).handles.length = c.handles.length + 1 ∧
    (make_array (make_array c h) h).handles.count h = c.handles.count h + 2 := by
  refine ⟨rfl, by simp [make_array], ?_⟩
  simp [make_array]

/-- The operations that drive the component between observations: an external
caller enqueuing a handle (`make_array`), the external loader writing a
finished load into the asset store, and the host scheduler invoking one
maintenance pass (`convert_skyboxes`). -/
inductive Op where
  | enqueue (h : Handle)
  | load (h : Handle) (img : Image)
  | pass
deriving DecidableEq

/-- The component's startup state: empty queue, empty asset store. -/
def initState : SkyboxTextureConversion × Assets :=
  (⟨[]⟩, fun _ => none)

/-- One step of the component. -/
def applyOp (st : SkyboxTextureConversion × Assets) (op : Op) :
    SkyboxTextureConversion × Assets :=
  match op with
  | .enqueue h => (make_array st.1 h, st.2)
  | .load h img => (st.1, Assets.set st.2 h img)
  | .pass => convert_skyboxes st.1 st.2

/-- The state reached from startup by a sequence of operations; every
reachable state of the component is `run ops` for some `ops`. -/
def run (ops : List Op) : SkyboxTextureConversion × Assets :=
  ops.foldl applyOp initState

/-- Counterexample to claim C7 as stated: the state reached by enqueuing
handle 0 twice (before any conversion completes) is a reachable state in
which the reference appears in the queue twice, so it is false that at every
reachable state a given reference appears in the queue at most once. -/
theorem C7_counterexample :
    ¬ (∀ (ops : List Op) (h : Handle), (run ops).1.handles.count h ≤ 1) := by
  intro hall
  have := hall [Op.enqueue 0, Op.enqueue 0] 0
  simp [run, initState, applyOp, make_array] at this

/-- Queue occurrences never increase across a maintenance pass. -/
theorem count_pass_le (c : SkyboxTextureConversion) (a : Assets) (r : Handle) :
    (convert_skyboxes c a).1.handles.count r ≤ c.handles.count r := by
  rw [convert_skyboxes_handles]
  exact (List.filter_sublist c.handles).count_le r

/-- Invariant carrier for the amended C7: if the current occurrences of `r`
in the queue plus the enqueues of `r` still to come total at most one, then
`r` occurs at most once in the queue at the end of the trace. -/
theorem count_le_one_of_run (r : Handle) :
    ∀ (ops : List Op) (st : SkyboxTextureConversion × Assets),
      st.1.handles.count r + ops.count (Op.enqueue r) ≤ 1 →
      (ops.foldl applyOp st).1.handles.count r ≤ 1 := by
  intro ops
  induction ops with
  | nil =>
    intro st hinv
    simpa using hinv
  | cons op t ih =>
    intro st hinv
    rw [List.foldl_cons]
    refine ih (applyOp st op) ?_
    cases op with
    | enqueue h =>
      by_cases heq : h = r
      · subst heq
        have hcnt : (Op.enqueue h :: t).count (Op.enqueue h) = t.count (Op.enqueue h) + 1 :=
          List.count_cons_self _ _
        rw [hcnt] at hinv
        have : (applyOp st (Op.enqueue h)).1.handles.count h
            = st.1.handles.count h + 1 := by
          simp [applyOp, make_array]
        rw [this]
        omega
      · have hcnt : (Op.enqueue h :: t).count (Op.enqueue r) = t.count (Op.enqueue r) :=
          List.count_cons_of_ne (fun he => heq (Op.enqueue.inj he).symm) t
        rw [hcnt] at hinv
        have happ : (applyOp st (Op.enqueue h)).1.handles.count r
            = st.1.handles.count r := by
          simp [applyOp, make_array, List.count_singleton, heq]
        rw [happ]
        exact hinv
    | load h img =>
      have hcnt : (Op.load h img :: t).count (Op.enqueue r) = t.count (Op.enqueue r) := by
        refine List.count_cons_of_ne (by simp) t
      rw [hcnt] at hinv
      simpa [applyOp] using hinv
    | pass =>
      have hcnt : (Op.pass :: t).count (Op.enqueue r) = t.count (Op.enqueue r) := by
        refine List.count_cons_of_ne (by simp) t
      rw [hcnt] at hinv
      have hle := count_pass_le st.1 st.2 r
      have : (applyOp st Op.pass).1.handles.count r ≤ st.1.handles.count r := hle
      omega

/-- A reference absent from the queue stays absent across any further
operations that do not re-enqueue it. -/
theorem not_mem_of_run_no_enqueue (r : Handle) :
    ∀ (more : List Op) (st : SkyboxTextureConversion × Assets),
      r ∉ st.1.handles → more.count (Op.enqueue r) = 0 →
      r ∉ (more.foldl applyOp st).1.handles := by
  intro more
  induction more with
  | nil =>
    intro st habs _
    simpa using habs
  | cons op t ih =>
    intro st habs hcnt
    rw [List.foldl_cons]
    have hhd : (Op.enqueue r) ≠ op := by
      intro he
      rw [← he, List.count_cons_self] at hcnt
      omega
    have hcnt2 : t.count (Op.enqueue r) = 0 := by
      rw [List.count_cons_of_ne hhd] at hcnt
      exact hcnt
    refine ih (applyOp st op) ?_ hcnt2
    cases op with
    | enqueue h =>
      have hne : h ≠ r := fun he => hhd (by rw [he])
      simp [applyOp, make_array]
      exact ⟨habs, fun he => hne he.symm⟩
    | load h img =>
      simpa [applyOp] using habs
    | pass =>
      exact not_mem_pass_of_not_mem st.1 st.2 r habs

/-- Amended claim C7: the at-most-once queue invariant holds at every state
reachable under the caller discipline the spec demands — each reference
enqueued at most once over the trace — and once a reference has left the
queue (its conversion having completed) it never reappears as long as it is
not re-enqueued. Without that discipline the invariant fails, see the
counterexample. -/
theorem C7_amended_at_most_once_under_discipline
    (ops more : List Op) (r : Handle)
    (henq : ops.count (Op.enqueue r) ≤ 1) :
    (run ops).1.handles.count r ≤ 1 ∧
    (r ∉ (run ops).1.handles → more.count (Op.enqueue r) = 0 →
      r ∉ (run (ops ++ more)).1.handles) := by
  constructor
  · refine count_le_one_of_run r ops initState ?_
    simpa [initState] using henq
  · intro habs hnone
    rw [run, List.foldl_append]
    exact not_mem_of_run_no_enqueue r more (run ops) habs hnone

/-- Witness for the amended C7 at a concrete input: a trace that enqueues
handle 0 once, loads it, and runs one pass. -/
theorem C7_amended_witness :
    ([Op.enqueue 0, Op.load 0 texA, Op.pass] : List Op).count (Op.enqueue 0) ≤ 1 ∧
    ((run [Op.enqueue 0, Op.load 0 texA, Op.pass]).1.handles.count 0 ≤ 1 ∧
      (0 ∉ (run [Op.enqueue 0, Op.load 0 texA, Op.pass]).1.handles →
        ([] : List Op).count (Op.enqueue 0) = 0 →
        0 ∉ (run ([Op.enqueue 0, Op.load 0 texA, Op.pass] ++ [])).1.handles)) :=
  ⟨by decide,
    C7_amended_at_most_once_under_discipline [Op.enqueue 0, Op.load 0 texA, Op.pass] [] 0
      (by decide)⟩

/-- Claim C8: when a resident resource's pixel byte length is not divisible
into 6 equal strips, the maintenance pass performs no validation and has no
failure path: it removes the entry and applies the conversion primitive to
the malformed buffer exactly as in the well-formed case, silently rewriting
the layout metadata over the unchanged bytes. -/
theorem C8_malformed_buffer_converted_without_validation
    (r : Handle) (tex : Image) (a : Assets)
    (hres : a r = some tex) (_hbad : tex.data.length % 6 ≠ 0) :
    r ∉ (convert_skyboxes ⟨[r]⟩ a).1.handles ∧
    (convert_skyboxes ⟨[r]⟩ a).2 r = some (reinterpret_stacked_2d_as_array tex 6) ∧
    (reinterpret_stacked_2d_as_array tex 6).data = tex.data := by
  refine ⟨?_, ?_, rfl⟩
  · rw [convert_skyboxes_handles]
    simp [hres]
  · rw [convert_skyboxes_store, List.count_singleton_self, hres, Option.map_some',
      Function.iterate_one]
    rfl

/-- A malformed image: one byte, not divisible into 6 equal strips. -/
def texBad : Image :=
  ⟨[9], 1, 1, 1⟩

/-- A concrete store in which only handle 0 is resident, with the malformed
image. -/
def storeD : Assets :=
  fun h => if h = 0 then some texBad else none

/-- Witness for C8 at a concrete input. -/
theorem C8_witness :
    (storeD 0 = some texBad ∧ texBad.data.length % 6 ≠ 0) ∧
    (0 ∉ (convert_skyboxes ⟨[0]⟩ storeD).1.handles ∧
      (convert_skyboxes ⟨[0]⟩ storeD).2 0 = some (reinterpret_stacked_2d_as_array texBad 6) ∧
      (reinterpret_stacked_2d_as_array texBad 6).data = texBad.data) :=
  ⟨⟨rfl, by decide⟩,
    C8_malformed_buffer_converted_without_validation 0 texBad storeD rfl (by decide)⟩

/-- Claim C9: for a resident buffer of byte length `6 * m` enqueued once,
after one maintenance pass the entry is gone and the stored image's metadata
reports 6 layers of `m` bytes each; the byte content is preserved unchanged,
and the `i`-th top-to-bottom strip of the original flat buffer is exactly
layer `i` of the converted image, for `i = 0` through `5`. -/
theorem C9_six_layers_preserving_strips
    (r : Handle) (tex : Image) (a : Assets) (m : Nat)
    (hres : a r = some tex) (hlen : tex.data.length = 6 * m) :
    r ∉ (convert_skyboxes ⟨[r]⟩ a).1.handles ∧
    (convert_skyboxes ⟨[r]⟩ a).2 r = some (reinterpret_stacked_2d_as_array tex 6) ∧
    (reinterpret_stacked_2d_as_array tex 6).layers = 6 ∧
    (reinterpret_stacked_2d_as_array tex 6).data = tex.data ∧
    (∀ i, i < 6 →
      layerData (reinterpret_stacked_2d_as_array tex 6) i = (tex.data.drop (i * m)).take m ∧
      (layerData (reinterpret_stacked_2d_as_array tex 6) i).length = m) := by
  have hdata : (reinterpret_stacked_2d_as_array tex 6).data = tex.data := rfl
  have hlayers : (reinterpret_stacked_2d_as_array tex 6).layers = 6 := rfl
  have hm : tex.data.length / 6 = m := by
    rw [hlen]
    exact Nat.mul_div_cancel_left m (by norm_num)
  have hlay : ∀ i, layerData (reinterpret_stacked_2d_as_array tex 6) i
      = (tex.data.drop (i * m)).take m := by
    intro i
    simp only [layerData, hdata, hlayers, hm]
  refine ⟨?_, ?_, hlayers, hdata, ?_⟩
  · rw [convert_skyboxes_handles]
    simp [hres]
  · rw [convert_skyboxes_store, List.count_singleton_self, hres, Option.map_some',
      Function.iterate_one]
    rfl
  · intro i hi
    refine ⟨hlay i, ?_⟩
    rw [hlay i, List.length_take, List.length_drop, hlen]
    have h1 : (i + 1) * m ≤ 6 * m := Nat.mul_le_mul_right m (by omega)
    have h2 : i * m + m ≤ 6 * m := by
      rw [Nat.succ_mul] at h1
      exact h1
    have h3 : m ≤ 6 * m - i * m := Nat.le_sub_of_add_le (by rw [Nat.add_comm]; exact h2)
    exact min_eq_left h3

/-- Witness for C9 at a concrete input: the six-byte flat image `texA` under
handle 0, strip height one byte (`m = 1`). -/
theorem C9_witness :
    (storeB 0 = some texA ∧ texA.data.length = 6 * 1) ∧
    (0 ∉ (convert_skyboxes ⟨[0]⟩ storeB).1.handles ∧
      (convert_skyboxes ⟨[0]⟩ storeB).2 0 = some (reinterpret_stacked_2d_as_array texA 6) ∧
      (reinterpret_stacked_2d_as_array texA 6).layers = 6 ∧
      (reinterpret_stacked_2d_as_array texA 6).data = texA.data ∧
      (∀ i, i < 6 →
        layerData (reinterpret_stacked_2d_as_array texA 6) i
          = (texA.data.drop (i * 1)).take 1 ∧
        (layerData (reinterpret_stacked_2d_as_array texA 6) i).length = 1)) :=
  ⟨⟨rfl, by decide⟩, C9_six_layers_preserving_strips 0 texA storeB 1 rfl (by decide)⟩

/-- Claim C10: a maintenance pass mutates only textures that were pending and
resident: a texture that is not resident is left untouched, a texture whose
handle is not in the queue is left untouched, and the queue occurrences of a
non-resident reference are left unchanged. -/
theorem C10_pass_frame_effect
    (c : SkyboxTextureConversion) (a : Assets) (h1 h2 : Handle)
    (hnr : a h1 = none) (hnp : h2 ∉ c.handles) :
    (convert_skyboxes c a).2 h1 = a h1 ∧
    (convert_skyboxes c a).2 h2 = a h2 ∧
    (convert_skyboxes c a).1.handles.count h1 = c.handles.count h1 := by
  refine ⟨?_, ?_, count_pass_of_none c a h1 hnr⟩
  · rw [convert_skyboxes_store, hnr]
    rfl
  · rw [convert_skyboxes_store, List.count_eq_zero.mpr hnp]
    simp only [Function.iterate_zero]
    cases a h2 <;> rfl

/-- Witness for C10 at a concrete input: queue `[3]` with handle 3 not
resident, handle 9 not pending, under the store that has only handle 0
resident. -/
theorem C10_witness :
    (storeB 3 = none ∧ (9 : Handle) ∉ (⟨[3]⟩ : SkyboxTextureConversion).handles) ∧
    ((convert_skyboxes ⟨[3]⟩ storeB).2 3 = storeB 3 ∧
      (convert_skyboxes ⟨[3]⟩ storeB).2 9 = storeB 9 ∧
      (convert_skyboxes ⟨[3]⟩ storeB).1.handles.count 3
        = (⟨[3]⟩ : SkyboxTextureConversion).handles.count 3) :=
  ⟨⟨rfl, by decide⟩, C10_pass_frame_effect ⟨[3]⟩ storeB 3 9 rfl (by decide)⟩
